import Mathlib

/-!
Verification of `src/components/admin_console/system_roles/system_role/system_role.tsx`
(the `SystemRole` React component of mattermost-webapp).

The component's local state and its four transition functions
(`addUsersToRole`, `removeUserFromRole`, `updatePermission`, `handleSubmit`)
are embedded as pure Lean functions.  JavaScript objects used as string-keyed
dictionaries (`Dictionary<UserProfile>`, `Record<string, ...>`) are embedded
as insertion-ordered association lists (`Dict`): JS object keys are unique and
`Object.keys` enumerates string keys in insertion order, which the list order
models; `m[k] = v` updates in place or appends, `delete m[k]` removes the key.
The remote action `updateUserRoles` is embedded as an environment function
`env : String → String → ActionResult`; `Promise.all` returns its results in
the order the promises were issued, which `List.map env` models.
-/

namespace SystemRole

/-- The `'read' | 'write' | false` values of `permissionsToUpdate`. -/
inductive PermValue
  | read
  | write
  | off
deriving DecidableEq, Repr

/-- The fields of `UserProfile` that the component reads: `id` and the
space-separated `roles` string. -/
structure UserProfile where
  id : String
  roles : String
deriving DecidableEq, Repr

/-- `ActionResult`: either a success payload or an object with an `error`
carrying a `message` (spec section 6). -/
inductive ActionResult
  | ok
  | error (message : String)
deriving DecidableEq, Repr

/-- `isError` from `types/actions`: whether the result carries an `error`. -/
def ActionResult.isErr : ActionResult → Bool
  | .ok => false
  | .error _ => true

/-- Extract the error message surfaced by
`if (resultWithError && 'error' in resultWithError) ... resultWithError.error.message`. -/
def errMsg : Option ActionResult → Option String
  | some (ActionResult.error m) => some m
  | _ => none

/-- A JS object used as a string-keyed dictionary, as an insertion-ordered
association list.  States produced by the component always have pairwise
distinct keys (JS objects cannot hold a key twice). -/
abbrev Dict (α : Type) := List (String × α)

/-- `m[k]` (as an `Option`). -/
def dictLookup (k : String) : Dict α → Option α
  | [] => none
  | (k', v) :: rest => if k' = k then some v else dictLookup k rest

/-- `m[k] = v`: update in place if the key exists, else append. -/
def dictInsert (k : String) (v : α) : Dict α → Dict α
  | [] => [(k, v)]
  | (k', v') :: rest => if k' = k then (k, v) :: rest else (k', v') :: dictInsert k v rest

/-- `delete m[k]`. -/
def dictErase (k : String) : Dict α → Dict α
  | [] => []
  | (k', v') :: rest => if k' = k then rest else (k', v') :: dictErase k rest

/-- The keys of the dictionary are pairwise distinct (always true of the
dictionaries a JS object can denote). -/
def DistinctKeys (d : Dict α) : Prop := (d.map Prod.fst).Nodup

instance (d : Dict α) : Decidable (DistinctKeys d) := by
  unfold DistinctKeys; infer_instance

/-- lodash `uniq`, keeping the first occurrence of each element:
auxiliary recursion over the input with an accumulator of elements seen. -/
def uniqAux (seen : List String) : List String → List String
  | [] => []
  | x :: xs => if x ∈ seen then uniqAux seen xs else x :: uniqAux (x :: seen) xs

/-- lodash `uniq`. -/
def uniq (l : List String) : List String := uniqAux [] l

/-- The component's `State` (the rendered `serverError` JSX is modelled by the
error message it wraps). -/
structure State where
  usersToAdd : Dict UserProfile
  usersToRemove : Dict UserProfile
  permissionsToUpdate : Dict PermValue
  saving : Bool
  saveNeeded : Bool
  serverError : Option String
  saveKey : Nat
deriving DecidableEq, Repr

/-- The state installed by the constructor. -/
def initialState : State :=
  { usersToAdd := []
    usersToRemove := []
    permissionsToUpdate := []
    saving := false
    saveNeeded := false
    serverError := none
    saveKey := 0 }

/-- `getSaveNeeded`: `Object.keys(usersToAdd).length > 0 || Object.keys(usersToRemove).length > 0`. -/
def getSaveNeeded (usersToAdd usersToRemove : Dict UserProfile) : Bool :=
  decide (0 < usersToAdd.length) || decide (0 < usersToRemove.length)

/-- The body of `addUsersToRole`'s `users.forEach`: on the pair
`(usersToAdd, usersToRemove)`, if the user has a pending removal delete it,
else record a pending addition. -/
def addUsersStep (m : Dict UserProfile × Dict UserProfile) (user : UserProfile) :
    Dict UserProfile × Dict UserProfile :=
  if (dictLookup user.id m.2).isSome then
    (m.1, dictErase user.id m.2)
  else
    (dictInsert user.id user m.1, m.2)

/-- `addUsersToRole`: copy both maps, then for each user in order apply
`addUsersStep`; finally recompute `saveNeeded`. -/
def addUsersToRole (s : State) (users : List UserProfile) : State :=
  let maps := users.foldl addUsersStep (s.usersToAdd, s.usersToRemove)
  { s with
    usersToAdd := maps.1
    usersToRemove := maps.2
    saveNeeded := getSaveNeeded maps.1 maps.2 }

/-- `removeUserFromRole`: copy both maps; if the user has a pending addition
delete it, else record a pending removal; recompute `saveNeeded`. -/
def removeUserFromRole (s : State) (user : UserProfile) : State :=
  let maps :=
    if (dictLookup user.id s.usersToAdd).isSome then
      (dictErase user.id s.usersToAdd, s.usersToRemove)
    else
      (s.usersToAdd, dictInsert user.id user s.usersToRemove)
  { s with
    usersToAdd := maps.1
    usersToRemove := maps.2
    saveNeeded := getSaveNeeded maps.1 maps.2 }

/-- `updatePermission`: record the desired level for one permission name. -/
def updatePermission (s : State) (name : String) (value : PermValue) : State :=
  { s with permissionsToUpdate := dictInsert name value s.permissionsToUpdate }

/-- JS `s.split(' ')`, working over the character list: splits at every
single space, so `"" → [""]` and `"a  b" → ["a", "", "b"]`. -/
def splitSpacesAux : List Char → List Char → List String
  | [], acc => [String.mk acc.reverse]
  | c :: cs, acc =>
    if c = ' ' then String.mk acc.reverse :: splitSpacesAux cs []
    else splitSpacesAux cs (c :: acc)

/-- JS `s.split(' ')`. -/
def splitSpaces (s : String) : List String := splitSpacesAux s.data []

/-- JS `parts.join(' ')`. -/
def joinSpaces : List String → String
  | [] => ""
  | [x] => x
  | x :: xs => x ++ " " ++ joinSpaces xs

/-- The role list sent for a user in the removal phase:
`uniq(user.roles.split(' ').filter((r) => r !== role.name))`,
before the final `join(' ')`. -/
def removedRolesList (user : UserProfile) (roleName : String) : List String :=
  uniq ((splitSpaces user.roles).filter (fun r => r ≠ roleName))

/-- The role list sent for a user in the addition phase:
`uniq([...user.roles.split(' '), role.name])`, before the final `join(' ')`. -/
def addedRolesList (user : UserProfile) (roleName : String) : List String :=
  uniq (splitSpaces user.roles ++ [roleName])

/-- One `updateUserRoles(userId, roles)` call. -/
structure Call where
  userId : String
  roles : String
deriving DecidableEq, Repr

/-- Which phase of `handleSubmit` issued a call. -/
inductive Phase
  | removal
  | addition
deriving DecidableEq, Repr

/-- `handleSubmit`, returning the issued `updateUserRoles` calls in issue
order (tagged with their phase) together with the final state.

Mirrors the source: if pending removals exist, issue one call per removed
user (iterating `Object.keys(usersToRemove)`, i.e. the entries in insertion
order), await all (`Promise.all` keeps issue order), and take
`result.find(isError)`; if pending additions exist and no error was captured,
do the same for additions; increment `saveKey` only when no error; the final
`setState` always clears both pending maps, sets
`saveNeeded = (serverError !== null)`, `saving = false`, and stores the error. -/
def handleSubmit (roleName : String) (env : String → String → ActionResult)
    (s : State) : List (Phase × Call) × State :=
  let usersToRemove := s.usersToRemove
  let usersToAdd := s.usersToAdd
  let removeCalls : List Call :=
    usersToRemove.map (fun p => ⟨p.1, joinSpaces (removedRolesList p.2 roleName)⟩)
  let removeResults : List ActionResult := removeCalls.map (fun c => env c.userId c.roles)
  let serverError1 : Option String :=
    if 0 < usersToRemove.length then
      errMsg (removeResults.find? ActionResult.isErr)
    else none
  let doAdd : Prop := 0 < usersToAdd.length ∧ serverError1 = none
  let addCalls : List Call :=
    usersToAdd.map (fun p => ⟨p.1, joinSpaces (addedRolesList p.2 roleName)⟩)
  let addResults : List ActionResult := addCalls.map (fun c => env c.userId c.roles)
  let serverError2 : Option String :=
    if doAdd then errMsg (addResults.find? ActionResult.isErr) else serverError1
  let saveKey : Nat := if serverError2 = none then s.saveKey + 1 else s.saveKey
  let trace : List (Phase × Call) :=
    (if 0 < usersToRemove.length then removeCalls.map (fun c => (Phase.removal, c)) else [])
      ++ (if doAdd then addCalls.map (fun c => (Phase.addition, c)) else [])
  (trace,
    { s with
      saveNeeded := serverError2.isSome
      saving := false
      serverError := serverError2
      usersToAdd := []
      usersToRemove := []
      saveKey := saveKey })

/-- The states reachable from the constructor's state by the component's
user-driven operations (with arbitrary remote results during submits). -/
inductive Reachable : State → Prop
  | init : Reachable initialState
  | addUsers (s : State) (users : List UserProfile) :
      Reachable s → Reachable (addUsersToRole s users)
  | removeUser (s : State) (user : UserProfile) :
      Reachable s → Reachable (removeUserFromRole s user)
  | updatePerm (s : State) (name : String) (v : PermValue) :
      Reachable s → Reachable (updatePermission s name v)
  | submit (s : State) (roleName : String) (env : String → String → ActionResult) :
      Reachable s → Reachable (handleSubmit roleName env s).2

/-- As `Reachable`, but every submit is one in which no issued call returned
an error. -/
inductive ReachableOk : State → Prop
  | init : ReachableOk initialState
  | addUsers (s : State) (users : List UserProfile) :
      ReachableOk s → ReachableOk (addUsersToRole s users)
  | removeUser (s : State) (user : UserProfile) :
      ReachableOk s → ReachableOk (removeUserFromRole s user)
  | updatePerm (s : State) (name : String) (v : PermValue) :
      ReachableOk s → ReachableOk (updatePermission s name v)
  | submit (s : State) (roleName : String) (env : String → String → ActionResult) :
      (∀ pc ∈ (handleSubmit roleName env s).1,
        ActionResult.isErr (env (Prod.snd pc).userId (Prod.snd pc).roles) = false) →
      ReachableOk s → ReachableOk (handleSubmit roleName env s).2

/-- Modelled from the spec: the spec speaks of the "first error found in
completion order of the parallel calls"; completion order is a runtime
scheduling notion absent from the code, modelled here as a list of indices
into the issue-order result array, giving the order in which the parallel
calls completed. -/
def firstErrorInCompletionOrder (results : List ActionResult)
    (completionOrder : List Nat) : Option String :=
  errMsg (((completionOrder.filterMap (fun i => results.get? i))).find? ActionResult.isErr)

/-! ### Dictionary lemmas -/

theorem dictLookup_insert_self (k : String) (v : α) (d : Dict α) :
    dictLookup k (dictInsert k v d) = some v := by
  induction d with
  | nil => simp [dictInsert, dictLookup]
  | cons p rest ih =>
    obtain ⟨k', v'⟩ := p
    by_cases h : k' = k
    · simp [dictInsert, h, dictLookup]
    · simp [dictInsert, h, dictLookup, ih]

theorem dictLookup_insert_ne (k' k : String) (v : α) (d : Dict α) (h : k' ≠ k) :
    dictLookup k' (dictInsert k v d) = dictLookup k' d := by
  induction d with
  | nil => simp [dictInsert, dictLookup, Ne.symm h]
  | cons p rest ih =>
    obtain ⟨k₀, v₀⟩ := p
    by_cases h₀ : k₀ = k
    · subst h₀
      simp [dictInsert, dictLookup, Ne.symm h]
    · simp [dictInsert, h₀, dictLookup, ih]

theorem dictLookup_eq_none_of_not_mem (k : String) (d : Dict α)
    (h : k ∉ d.map Prod.fst) : dictLookup k d = none := by
  induction d with
  | nil => rfl
  | cons p rest ih =>
    obtain ⟨k₀, v₀⟩ := p
    simp only [List.map_cons, List.mem_cons] at h
    push_neg at h
    rw [dictLookup, if_neg (Ne.symm h.1)]
    exact ih h.2

theorem dictLookup_erase_self (k : String) (d : Dict α) (hd : DistinctKeys d) :
    dictLookup k (dictErase k d) = none := by
  induction d with
  | nil => rfl
  | cons p rest ih =>
    obtain ⟨k₀, v₀⟩ := p
    have hd' := hd
    unfold DistinctKeys at hd'
    simp only [List.map_cons, List.nodup_cons] at hd'
    obtain ⟨hk₀, hrest⟩ := hd'
    by_cases h₀ : k₀ = k
    · subst h₀
      rw [dictErase, if_pos rfl]
      exact dictLookup_eq_none_of_not_mem k₀ rest hk₀
    · rw [dictErase, if_neg h₀, dictLookup, if_neg h₀]
      exact ih hrest

theorem dictLookup_erase_ne (k' k : String) (d : Dict α) (h : k' ≠ k) :
    dictLookup k' (dictErase k d) = dictLookup k' d := by
  induction d with
  | nil => rfl
  | cons p rest ih =>
    obtain ⟨k₀, v₀⟩ := p
    by_cases h₀ : k₀ = k
    · subst h₀
      rw [dictErase, if_pos rfl, dictLookup, if_neg (fun e => h (Eq.symm e))]
    · rw [dictErase, if_neg h₀, dictLookup, dictLookup, ih]

theorem keys_erase_sublist (k : String) (d : Dict α) :
    ((dictErase k d).map Prod.fst).Sublist (d.map Prod.fst) := by
  induction d with
  | nil => simp [dictErase]
  | cons p rest ih =>
    obtain ⟨k₀, v₀⟩ := p
    by_cases h₀ : k₀ = k
    · simp only [dictErase, if_pos h₀, List.map_cons]
      exact List.sublist_cons_self _ _
    · simp only [dictErase, if_neg h₀, List.map_cons]
      exact ih.cons₂ _

theorem distinctKeys_erase (k : String) (d : Dict α) (hd : DistinctKeys d) :
    DistinctKeys (dictErase k d) :=
  List.Nodup.sublist (keys_erase_sublist k d) hd

/-! ### `uniq` lemmas -/

theorem mem_uniqAux (x : String) (seen l : List String) :
    x ∈ uniqAux seen l ↔ x ∈ l ∧ x ∉ seen := by
  induction l generalizing seen with
  | nil => simp [uniqAux]
  | cons y ys ih =>
    by_cases hy : y ∈ seen
    · rw [uniqAux, if_pos hy, ih]
      constructor
      · rintro ⟨hmem, hseen⟩
        exact ⟨List.mem_cons_of_mem y hmem, hseen⟩
      · rintro ⟨hmem, hseen⟩
        rcases List.mem_cons.mp hmem with rfl | hmem
        · exact absurd hy hseen
        · exact ⟨hmem, hseen⟩
    · rw [uniqAux, if_neg hy]
      constructor
      · intro hmem
        rcases List.mem_cons.mp hmem with rfl | hmem
        · exact ⟨List.mem_cons_self x ys, hy⟩
        · obtain ⟨h1, h2⟩ := (ih (y :: seen)).mp hmem
          exact ⟨List.mem_cons_of_mem y h1, fun hx => h2 (List.mem_cons_of_mem y hx)⟩
      · rintro ⟨hmem, hseen⟩
        rcases List.mem_cons.mp hmem with rfl | hmem
        · exact List.mem_cons_self x (uniqAux (x :: seen) ys)
        · by_cases hxy : x = y
          · subst hxy
            exact List.mem_cons_self x (uniqAux (x :: seen) ys)
          · refine List.mem_cons_of_mem y ((ih (y :: seen)).mpr ⟨hmem, ?_⟩)
            intro hx
            rcases List.mem_cons.mp hx with h | h
            · exact hxy h
            · exact hseen h

theorem nodup_uniqAux (seen l : List String) : (uniqAux seen l).Nodup := by
  induction l generalizing seen with
  | nil => simp [uniqAux]
  | cons y ys ih =>
    by_cases hy : y ∈ seen
    · rw [uniqAux, if_pos hy]
      exact ih seen
    · rw [uniqAux, if_neg hy]
      refine List.nodup_cons.mpr ⟨?_, ih (y :: seen)⟩
      rw [mem_uniqAux]
      rintro ⟨-, hnot⟩
      exact hnot (List.mem_cons_self y seen)

theorem mem_uniq (x : String) (l : List String) : x ∈ uniq l ↔ x ∈ l := by
  rw [uniq, mem_uniqAux]
  simp

theorem nodup_uniq (l : List String) : (uniq l).Nodup := nodup_uniqAux [] l

/-! ### `handleSubmit` lemmas -/

theorem map_tagged (ph : Phase) (env : String → String → ActionResult) (calls : List Call) :
    List.map (fun pc => env (Prod.snd pc).userId (Prod.snd pc).roles)
        (List.map (fun c => (ph, c)) calls) =
      List.map (fun c => env c.userId c.roles) calls := by
  rw [List.map_map]
  rfl

theorem handleSubmit_serverError (roleName : String) (env : String → String → ActionResult)
    (s : State) :
    (handleSubmit roleName env s).2.serverError =
      errMsg (((handleSubmit roleName env s).1.map
        (fun pc => env (Prod.snd pc).userId (Prod.snd pc).roles)).find? ActionResult.isErr) := by
  simp only [handleSubmit]
  by_cases h1 : 0 < s.usersToRemove.length
  · simp only [if_pos h1]
    rcases hf : (List.find? ActionResult.isErr
        (List.map (fun c => env c.userId c.roles)
          (List.map (fun p => Call.mk p.1
            (joinSpaces (removedRolesList p.2 roleName))) s.usersToRemove))) with _ | r
    · simp only [hf, errMsg, eq_self_iff_true, and_true]
      by_cases h2 : 0 < s.usersToAdd.length
      · simp only [if_pos h2, List.map_append, map_tagged, List.find?_append, hf,
          Option.none_or]
      · simp only [if_neg h2, List.append_nil, map_tagged, hf, errMsg]
    · have hr := List.find?_some hf
      rcases r with _ | m
      · simp [ActionResult.isErr] at hr
      · simp only [hf, errMsg]
        have hnot : ¬ (0 < s.usersToAdd.length ∧ (some m : Option String) = none) :=
          fun hc => Option.noConfusion hc.2
        simp only [if_neg hnot, List.append_nil, map_tagged, hf]
  · simp only [if_neg h1, and_true]
    by_cases h2 : 0 < s.usersToAdd.length
    · simp only [if_pos h2, List.nil_append, map_tagged]
    · simp only [if_neg h2, List.nil_append, List.map_nil, List.find?_nil, errMsg]

/-! ### Claim theorems -/

/-- C9: `updatePermission(name, value)` changes only the `permissionsToUpdate`
field (setting the entry for `name` to `value`); `usersToAdd`, `usersToRemove`,
`saving`, `saveNeeded`, `serverError` and `saveKey` are unchanged, as are the
recorded levels of every other permission name. -/
theorem C9_updatePermission_frame (s : State) (name : String) (v : PermValue) :
    (updatePermission s name v).usersToAdd = s.usersToAdd ∧
    (updatePermission s name v).usersToRemove = s.usersToRemove ∧
    (updatePermission s name v).saving = s.saving ∧
    (updatePermission s name v).saveNeeded = s.saveNeeded ∧
    (updatePermission s name v).serverError = s.serverError ∧
    (updatePermission s name v).saveKey = s.saveKey ∧
    dictLookup name (updatePermission s name v).permissionsToUpdate = some v ∧
    ∀ k, k ≠ name →
      dictLookup k (updatePermission s name v).permissionsToUpdate =
        dictLookup k s.permissionsToUpdate := by
  refine ⟨rfl, rfl, rfl, rfl, rfl, rfl, ?_, ?_⟩
  · exact dictLookup_insert_self name v s.permissionsToUpdate
  · intro k hk
    exact dictLookup_insert_ne k name v s.permissionsToUpdate hk

/-- Witness for C9 at a concrete state and permission names. -/
theorem C9_witness :
    dictLookup "manage_jobs"
        (updatePermission initialState "read_channels" PermValue.write).permissionsToUpdate =
      dictLookup "manage_jobs" initialState.permissionsToUpdate :=
  (C9_updatePermission_frame initialState "read_channels" PermValue.write).2.2.2.2.2.2.2
    "manage_jobs" (by decide)

/-- C4: `removeUserFromRole(user)`: if the user has a pending addition it is
deleted and the pending-removal map is untouched (so no removal entry is
created); otherwise the user is recorded in the pending-removal map and the
pending-addition map is untouched; in either case no other entry of either
map changes. -/
theorem C4_removeUser_inverse (s : State) (user : UserProfile)
    (hA : DistinctKeys s.usersToAdd) :
    ((dictLookup user.id s.usersToAdd).isSome →
      dictLookup user.id (removeUserFromRole s user).usersToAdd = none ∧
      (removeUserFromRole s user).usersToRemove = s.usersToRemove ∧
      ∀ k, k ≠ user.id →
        dictLookup k (removeUserFromRole s user).usersToAdd = dictLookup k s.usersToAdd) ∧
    (dictLookup user.id s.usersToAdd = none →
      (removeUserFromRole s user).usersToAdd = s.usersToAdd ∧
      dictLookup user.id (removeUserFromRole s user).usersToRemove = some user ∧
      ∀ k, k ≠ user.id →
        dictLookup k (removeUserFromRole s user).usersToRemove =
          dictLookup k s.usersToRemove) := by
  constructor
  · intro hsome
    obtain ⟨v, hopt⟩ := Option.isSome_iff_exists.mp hsome
    have hAdd : (removeUserFromRole s user).usersToAdd = dictErase user.id s.usersToAdd := by
      simp [removeUserFromRole, hopt]
    have hRem : (removeUserFromRole s user).usersToRemove = s.usersToRemove := by
      simp [removeUserFromRole, hopt]
    refine ⟨?_, hRem, ?_⟩
    · rw [hAdd]
      exact dictLookup_erase_self user.id s.usersToAdd hA
    · intro k hk
      rw [hAdd]
      exact dictLookup_erase_ne k user.id s.usersToAdd hk
  · intro hnone
    have hAdd : (removeUserFromRole s user).usersToAdd = s.usersToAdd := by
      simp [removeUserFromRole, hnone]
    have hRem : (removeUserFromRole s user).usersToRemove =
        dictInsert user.id user s.usersToRemove := by
      simp [removeUserFromRole, hnone]
    refine ⟨hAdd, ?_, ?_⟩
    · rw [hRem]
      exact dictLookup_insert_self user.id user s.usersToRemove
    · intro k hk
      rw [hRem]
      exact dictLookup_insert_ne k user.id user s.usersToRemove hk

/-- C8 (as stated, refuted): with two removal-phase calls both failing, issued
for `u1` (error "A") then `u2` (error "B"), and a completion order in which
the second-issued call finishes first, the code surfaces "A" (the first error
in issue order, because `Promise.all` keeps issue order), while the claim's
"first error found in completion order" would be "B". -/
theorem C8_counterexample :
    (handleSubmit "r"
        (fun uid _ => ActionResult.error (if uid = "u1" then "A" else "B"))
        { initialState with
          usersToRemove := [("u1", ⟨"u1", "a r"⟩), ("u2", ⟨"u2", "b r"⟩)]
          saveNeeded := true }).2.serverError = some "A" ∧
    firstErrorInCompletionOrder
        ((handleSubmit "r"
          (fun uid _ => ActionResult.error (if uid = "u1" then "A" else "B"))
          { initialState with
            usersToRemove := [("u1", ⟨"u1", "a r"⟩), ("u2", ⟨"u2", "b r"⟩)]
            saveNeeded := true }).1.map
          (fun pc => (fun uid (_ : String) =>
            ActionResult.error (if uid = "u1" then "A" else "B"))
            (Prod.snd pc).userId (Prod.snd pc).roles))
        [1, 0] = some "B" ∧
    some "A" ≠ some "B" := by
  refine ⟨by decide, by decide, by decide⟩

/-- C8 (amended): exactly one error is surfaced (the state holds at most one),
namely the first error in *issue order* over all calls issued during the
submission — `Promise.all` returns results in the order the promises were
passed, and `result.find(isError)` scans that array order; completion order
is irrelevant.  No partial-success accounting or per-user attribution occurs. -/
theorem C8_first_error_issue_order (roleName : String)
    (env : String → String → ActionResult) (s : State) :
    (handleSubmit roleName env s).2.serverError =
      errMsg (((handleSubmit roleName env s).1.map
        (fun pc => env (Prod.snd pc).userId (Prod.snd pc).roles)).find?
          ActionResult.isErr) :=
  handleSubmit_serverError roleName env s

/-- C1 (as stated, refuted): with one pending removal and the remote call
failing, the pending-removal map after `submit()` is empty, not unchanged
(the final `setState` always clears both pending maps). -/
theorem C1_counterexample :
    (handleSubmit "system_admin" (fun _ _ => ActionResult.error "boom")
        { initialState with
          usersToRemove := [("u1", ⟨"u1", "system_user system_admin"⟩)]
          saveNeeded := true }).1 =
      [(Phase.removal, ⟨"u1", "system_user"⟩)] ∧
    ActionResult.isErr (ActionResult.error "boom") = true ∧
    (handleSubmit "system_admin" (fun _ _ => ActionResult.error "boom")
        { initialState with
          usersToRemove := [("u1", ⟨"u1", "system_user system_admin"⟩)]
          saveNeeded := true }).2.usersToRemove = [] ∧
    ({ initialState with
        usersToRemove := [("u1", ⟨"u1", "system_user system_admin"⟩)]
        saveNeeded := true } : State).usersToRemove ≠ [] := by
  refine ⟨by decide, rfl, rfl, by decide⟩

/-- C1 (amended): if at least one issued `updateUserRoles` call returns an
error, `submit()` leaves save-needed true and stores the error, but both
pending maps are cleared (reset to empty), not preserved for retry. -/
theorem C1_error_clears_pending (roleName : String)
    (env : String → String → ActionResult) (s : State)
    (h : ∃ pc ∈ (handleSubmit roleName env s).1,
      ActionResult.isErr (env (Prod.snd pc).userId (Prod.snd pc).roles) = true) :
    (handleSubmit roleName env s).2.usersToAdd = [] ∧
    (handleSubmit roleName env s).2.usersToRemove = [] ∧
    (handleSubmit roleName env s).2.saveNeeded = true ∧
    (handleSubmit roleName env s).2.serverError.isSome = true := by
  obtain ⟨pc, hmem, herr⟩ := h
  have hexists : ∃ r ∈ (handleSubmit roleName env s).1.map
      (fun pc => env (Prod.snd pc).userId (Prod.snd pc).roles),
      ActionResult.isErr r = true :=
    ⟨env (Prod.snd pc).userId (Prod.snd pc).roles,
      List.mem_map_of_mem _ hmem, herr⟩
  have hsome := List.find?_isSome.mpr hexists
  obtain ⟨r, hfr⟩ := Option.isSome_iff_exists.mp hsome
  have hrerr := List.find?_some hfr
  have hse : (handleSubmit roleName env s).2.serverError.isSome = true := by
    rw [handleSubmit_serverError, hfr]
    rcases r with _ | m
    · simp [ActionResult.isErr] at hrerr
    · simp [errMsg]
  refine ⟨rfl, rfl, ?_, hse⟩
  have hsn : (handleSubmit roleName env s).2.saveNeeded =
      (handleSubmit roleName env s).2.serverError.isSome := rfl
  rw [hsn, hse]

/-- Witness for C1 (amended) at a concrete failing submission. -/
theorem C1_witness :
    (handleSubmit "system_admin" (fun _ _ => ActionResult.error "down")
        { initialState with
          usersToAdd := [("u2", ⟨"u2", "system_user"⟩)]
          saveNeeded := true }).2.usersToAdd = [] ∧
    (handleSubmit "system_admin" (fun _ _ => ActionResult.error "down")
        { initialState with
          usersToAdd := [("u2", ⟨"u2", "system_user"⟩)]
          saveNeeded := true }).2.usersToRemove = [] ∧
    (handleSubmit "system_admin" (fun _ _ => ActionResult.error "down")
        { initialState with
          usersToAdd := [("u2", ⟨"u2", "system_user"⟩)]
          saveNeeded := true }).2.saveNeeded = true ∧
    (handleSubmit "system_admin" (fun _ _ => ActionResult.error "down")
        { initialState with
          usersToAdd := [("u2", ⟨"u2", "system_user"⟩)]
          saveNeeded := true }).2.serverError.isSome = true :=
  C1_error_clears_pending "system_admin" (fun _ _ => ActionResult.error "down")
    { initialState with
      usersToAdd := [("u2", ⟨"u2", "system_user"⟩)]
      saveNeeded := true }
    ⟨(Phase.addition, ⟨"u2", "system_user system_admin"⟩), by decide, by decide⟩

/-- Witness for C4: removing a user with a pending addition cancels the
addition at a concrete state. -/
theorem C4_witness :
    dictLookup "u1"
        (removeUserFromRole
          { initialState with
            usersToAdd := [("u1", ⟨"u1", "system_user"⟩)], saveNeeded := true }
          ⟨"u1", "system_user"⟩).usersToAdd = none :=
  ((C4_removeUser_inverse
      { initialState with
        usersToAdd := [("u1", ⟨"u1", "system_user"⟩)], saveNeeded := true }
      ⟨"u1", "system_user"⟩ (by decide)).1 (by decide)).1

theorem mem_ite_nil (c : Prop) [Decidable c] (l : List β) (x : β)
    (h : x ∈ if c then l else []) : x ∈ l := by
  by_cases hc : c
  · rwa [if_pos hc] at h
  · rw [if_neg hc] at h
    simp at h

/-- C2: every removal-phase call is issued before every addition-phase call
(the trace is a block of removal-tagged calls followed by a block of
addition-tagged calls), and if some issued removal-phase call returns an
error then no addition-phase call is issued at all in that submission. -/
theorem C2_removals_before_additions (roleName : String)
    (env : String → String → ActionResult) (s : State) :
    (∃ A B, (handleSubmit roleName env s).1 = A ++ B ∧
      (∀ pc ∈ A, Prod.fst pc = Phase.removal) ∧
      (∀ pc ∈ B, Prod.fst pc = Phase.addition)) ∧
    ((∃ c : Call, (Phase.removal, c) ∈ (handleSubmit roleName env s).1 ∧
        ActionResult.isErr (env c.userId c.roles) = true) →
      ∀ c : Call, (Phase.addition, c) ∉ (handleSubmit roleName env s).1) := by
  constructor
  · simp only [handleSubmit]
    refine ⟨_, _, rfl, ?_, ?_⟩
    · intro pc hpc
      obtain ⟨c, -, rfl⟩ := List.mem_map.mp (mem_ite_nil _ _ _ hpc)
      rfl
    · intro pc hpc
      obtain ⟨c, -, rfl⟩ := List.mem_map.mp (mem_ite_nil _ _ _ hpc)
      rfl
  · rintro ⟨c, hc, herr⟩ c' hc'
    simp only [handleSubmit] at hc hc'
    have hcA : (Phase.removal, c) ∈
        (if 0 < s.usersToRemove.length then
          List.map (fun c => (Phase.removal, c))
            (List.map (fun p => Call.mk p.1 (joinSpaces (removedRolesList p.2 roleName)))
              s.usersToRemove)
        else []) := by
      rcases List.mem_append.mp hc with h | h
      · exact h
      · exfalso
        obtain ⟨c₀, -, heq⟩ := List.mem_map.mp (mem_ite_nil _ _ _ h)
        exact Phase.noConfusion (congrArg Prod.fst heq)
    have h1 : 0 < s.usersToRemove.length := by
      by_contra hn
      rw [if_neg hn] at hcA
      simp at hcA
    rw [if_pos h1] at hcA
    obtain ⟨c₀, hc₀, heq⟩ := List.mem_map.mp hcA
    have hceq : c = c₀ := by
      have := congrArg Prod.snd heq
      simpa using this.symm
    subst hceq
    have hexists : ∃ r ∈ List.map (fun c => env c.userId c.roles)
        (List.map (fun p => Call.mk p.1 (joinSpaces (removedRolesList p.2 roleName)))
          s.usersToRemove), ActionResult.isErr r = true :=
      ⟨env c.userId c.roles, List.mem_map_of_mem _ hc₀, herr⟩
    have hsome := List.find?_isSome.mpr hexists
    obtain ⟨r, hfr⟩ := Option.isSome_iff_exists.mp hsome
    have hrerr := List.find?_some hfr
    have hcond : ¬ (0 < s.usersToAdd.length ∧
        (if 0 < s.usersToRemove.length then
          errMsg (List.find? ActionResult.isErr
            (List.map (fun c => env c.userId c.roles)
              (List.map (fun p => Call.mk p.1 (joinSpaces (removedRolesList p.2 roleName)))
                s.usersToRemove)))
        else none) = none) := by
      rintro ⟨-, hco⟩
      rw [if_pos h1, hfr] at hco
      rcases r with _ | m
      · simp [ActionResult.isErr] at hrerr
      · simp [errMsg] at hco
    rcases List.mem_append.mp hc' with h | h
    · rw [if_pos h1] at h
      obtain ⟨c₁, -, heq₁⟩ := List.mem_map.mp h
      exact Phase.noConfusion (congrArg Prod.fst heq₁)
    · rw [if_neg hcond] at h
      simp at h

/-- Witness for C2 at a concrete failing removal: no addition-phase call is
issued even though a pending addition exists. -/
theorem C2_witness :
    ((Phase.addition, ⟨"u2", "b r"⟩) : Phase × Call) ∉
      (handleSubmit "r" (fun _ _ => ActionResult.error "x")
        { initialState with
          usersToAdd := [("u2", ⟨"u2", "b"⟩)]
          usersToRemove := [("u1", ⟨"u1", "a r"⟩)]
          saveNeeded := true }).1 :=
  (C2_removals_before_additions "r" (fun _ _ => ActionResult.error "x")
      { initialState with
        usersToAdd := [("u2", ⟨"u2", "b"⟩)]
        usersToRemove := [("u1", ⟨"u1", "a r"⟩)]
        saveNeeded := true }).2
    ⟨⟨"u1", "a"⟩, by decide, by decide⟩ ⟨"u2", "b r"⟩

/-- C10: two starting states that differ only in `permissionsToUpdate` produce
the same sequence of remote calls under `submit()`, and final states that
again differ only (at most) in `permissionsToUpdate`; each keeps its own
`permissionsToUpdate` untouched. -/
theorem C10_permissions_noninterference (roleName : String)
    (env : String → String → ActionResult) (s t : State)
    (h1 : s.usersToAdd = t.usersToAdd) (h2 : s.usersToRemove = t.usersToRemove)
    (h3 : s.saving = t.saving) (h4 : s.saveNeeded = t.saveNeeded)
    (h5 : s.serverError = t.serverError) (h6 : s.saveKey = t.saveKey) :
    (handleSubmit roleName env s).1 = (handleSubmit roleName env t).1 ∧
    (handleSubmit roleName env s).2.permissionsToUpdate = s.permissionsToUpdate ∧
    (handleSubmit roleName env t).2.permissionsToUpdate = t.permissionsToUpdate ∧
    (handleSubmit roleName env s).2.usersToAdd = (handleSubmit roleName env t).2.usersToAdd ∧
    (handleSubmit roleName env s).2.usersToRemove =
      (handleSubmit roleName env t).2.usersToRemove ∧
    (handleSubmit roleName env s).2.saving = (handleSubmit roleName env t).2.saving ∧
    (handleSubmit roleName env s).2.saveNeeded = (handleSubmit roleName env t).2.saveNeeded ∧
    (handleSubmit roleName env s).2.serverError = (handleSubmit roleName env t).2.serverError ∧
    (handleSubmit roleName env s).2.saveKey = (handleSubmit roleName env t).2.saveKey := by
  obtain ⟨a, r, p, sv, sn, se, sk⟩ := s
  obtain ⟨a', r', p', sv', sn', se', sk'⟩ := t
  dsimp only at h1 h2 h3 h4 h5 h6
  subst h1 h2 h3 h4 h5 h6
  exact ⟨rfl, rfl, rfl, rfl, rfl, rfl, rfl, rfl, rfl⟩

/-- Witness for C10 at two concrete states differing only in the pending
permission map. -/
theorem C10_witness :
    (handleSubmit "system_admin" (fun _ _ => ActionResult.ok)
        { initialState with usersToAdd := [("u1", ⟨"u1", "system_user"⟩)] }).1 =
      (handleSubmit "system_admin" (fun _ _ => ActionResult.ok)
        { initialState with
          usersToAdd := [("u1", ⟨"u1", "system_user"⟩)]
          permissionsToUpdate := [("manage_jobs", PermValue.write)] }).1 :=
  (C10_permissions_noninterference "system_admin" (fun _ _ => ActionResult.ok)
    { initialState with usersToAdd := [("u1", ⟨"u1", "system_user"⟩)] }
    { initialState with
      usersToAdd := [("u1", ⟨"u1", "system_user"⟩)]
      permissionsToUpdate := [("manage_jobs", PermValue.write)] }
    rfl rfl rfl rfl rfl rfl).1

theorem countP_tagged (ph ph' : Phase) (calls : List Call) :
    List.countP (fun pc => Prod.fst pc == ph') (List.map (fun c => (ph, c)) calls)
      = if ph = ph' then calls.length else 0 := by
  induction calls with
  | nil => simp
  | cons c cs ih =>
    by_cases h : ph = ph' <;>
      simp [List.countP_cons, ih, h]

/-- C6: from a state with exactly 2 pending additions and 1 pending removal,
a submit in which every issued call succeeds issues exactly 3 calls
(1 removal-phase, 2 addition-phase), clears both pending maps, and increments
`saveKey` by exactly 1. -/
theorem C6_successful_submit (roleName : String)
    (env : String → String → ActionResult) (s : State)
    (hadd : s.usersToAdd.length = 2) (hrem : s.usersToRemove.length = 1)
    (hok : ∀ pc ∈ (handleSubmit roleName env s).1,
      ActionResult.isErr (env (Prod.snd pc).userId (Prod.snd pc).roles) = false) :
    (handleSubmit roleName env s).1.length = 3 ∧
    (handleSubmit roleName env s).1.countP (fun pc => Prod.fst pc == Phase.removal) = 1 ∧
    (handleSubmit roleName env s).1.countP (fun pc => Prod.fst pc == Phase.addition) = 2 ∧
    (handleSubmit roleName env s).2.usersToAdd = [] ∧
    (handleSubmit roleName env s).2.usersToRemove = [] ∧
    (handleSubmit roleName env s).2.saveKey = s.saveKey + 1 := by
  have h1 : 0 < s.usersToRemove.length := by omega
  have h2 : 0 < s.usersToAdd.length := by omega
  simp only [handleSubmit, if_pos h1] at hok ⊢
  have hR : List.find? ActionResult.isErr
      (List.map (fun c => env c.userId c.roles)
        (List.map (fun p => Call.mk p.1 (joinSpaces (removedRolesList p.2 roleName)))
          s.usersToRemove)) = none := by
    apply List.find?_eq_none.mpr
    intro r hrmem
    obtain ⟨c, hcmem, rfl⟩ := List.mem_map.mp hrmem
    have := hok (Phase.removal, c)
      (List.mem_append.mpr (Or.inl (List.mem_map_of_mem _ hcmem)))
    simpa using this
  have hcond : 0 < s.usersToAdd.length ∧
      errMsg (List.find? ActionResult.isErr
        (List.map (fun c => env c.userId c.roles)
          (List.map (fun p => Call.mk p.1 (joinSpaces (removedRolesList p.2 roleName)))
            s.usersToRemove))) = none := ⟨h2, by rw [hR]; rfl⟩
  simp only [if_pos hcond] at hok ⊢
  have hA : List.find? ActionResult.isErr
      (List.map (fun c => env c.userId c.roles)
        (List.map (fun p => Call.mk p.1 (joinSpaces (addedRolesList p.2 roleName)))
          s.usersToAdd)) = none := by
    apply List.find?_eq_none.mpr
    intro r hrmem
    obtain ⟨c, hcmem, rfl⟩ := List.mem_map.mp hrmem
    have := hok (Phase.addition, c)
      (List.mem_append.mpr (Or.inr (List.mem_map_of_mem _ hcmem)))
    simpa using this
  simp only [hA, errMsg]
  refine ⟨?_, ?_, ?_, trivial, trivial, ?_⟩
  · simp [List.length_append, List.length_map, hadd, hrem]
  · rw [List.countP_append, countP_tagged, countP_tagged]
    simp [List.length_map, hrem]
  · rw [List.countP_append, countP_tagged, countP_tagged]
    simp [List.length_map, hadd]
  · simp

/-- Witness for C6 at a concrete state with 2 pending additions and 1 pending
removal, all calls succeeding. -/
theorem C6_witness :
    (handleSubmit "r" (fun _ _ => ActionResult.ok)
        { initialState with
          usersToAdd := [("u2", ⟨"u2", "b"⟩), ("u3", ⟨"u3", "c"⟩)]
          usersToRemove := [("u1", ⟨"u1", "a r"⟩)]
          saveNeeded := true }).1.length = 3 ∧
    (handleSubmit "r" (fun _ _ => ActionResult.ok)
        { initialState with
          usersToAdd := [("u2", ⟨"u2", "b"⟩), ("u3", ⟨"u3", "c"⟩)]
          usersToRemove := [("u1", ⟨"u1", "a r"⟩)]
          saveNeeded := true }).1.countP (fun pc => Prod.fst pc == Phase.removal) = 1 ∧
    (handleSubmit "r" (fun _ _ => ActionResult.ok)
        { initialState with
          usersToAdd := [("u2", ⟨"u2", "b"⟩), ("u3", ⟨"u3", "c"⟩)]
          usersToRemove := [("u1", ⟨"u1", "a r"⟩)]
          saveNeeded := true }).1.countP (fun pc => Prod.fst pc == Phase.addition) = 2 ∧
    (handleSubmit "r" (fun _ _ => ActionResult.ok)
        { initialState with
          usersToAdd := [("u2", ⟨"u2", "b"⟩), ("u3", ⟨"u3", "c"⟩)]
          usersToRemove := [("u1", ⟨"u1", "a r"⟩)]
          saveNeeded := true }).2.usersToAdd = [] ∧
    (handleSubmit "r" (fun _ _ => ActionResult.ok)
        { initialState with
          usersToAdd := [("u2", ⟨"u2", "b"⟩), ("u3", ⟨"u3", "c"⟩)]
          usersToRemove := [("u1", ⟨"u1", "a r"⟩)]
          saveNeeded := true }).2.usersToRemove = [] ∧
    (handleSubmit "r" (fun _ _ => ActionResult.ok)
        { initialState with
          usersToAdd := [("u2", ⟨"u2", "b"⟩), ("u3", ⟨"u3", "c"⟩)]
          usersToRemove := [("u1", ⟨"u1", "a r"⟩)]
          saveNeeded := true }).2.saveKey =
      ({ initialState with
          usersToAdd := [("u2", ⟨"u2", "b"⟩), ("u3", ⟨"u3", "c"⟩)]
          usersToRemove := [("u1", ⟨"u1", "a r"⟩)]
          saveNeeded := true } : State).saveKey + 1 :=
  C6_successful_submit "r" (fun _ _ => ActionResult.ok)
    { initialState with
      usersToAdd := [("u2", ⟨"u2", "b"⟩), ("u3", ⟨"u3", "c"⟩)]
      usersToRemove := [("u1", ⟨"u1", "a r"⟩)]
      saveNeeded := true }
    rfl rfl (by decide)

/-- C7: every call issued by `handleSubmit` carries the role list recomputed
from the pending entry it was issued for: for a removal-phase call, the
space-join of `removedRolesList`, whose elements are exactly the tokens of
that user's existing `roles` string other than this role's name (every
occurrence removed) with no duplicate entries; for an addition-phase call,
the space-join of `addedRolesList`, whose elements are exactly the user's
existing tokens plus this role's name, with no duplicate entries and the
role's name occurring exactly once — so a user already holding the role who
is added again does not get the role name twice. -/
theorem C7_role_lists_deduplicated (roleName : String)
    (env : String → String → ActionResult) (s : State)
    (pc : Phase × Call) (hpc : pc ∈ (handleSubmit roleName env s).1) :
    ∃ p : String × UserProfile,
      (Prod.snd pc).userId = p.1 ∧
      ((Prod.fst pc = Phase.removal ∧ p ∈ s.usersToRemove ∧
          (Prod.snd pc).roles = joinSpaces (removedRolesList p.2 roleName) ∧
          (removedRolesList p.2 roleName).Nodup ∧
          (∀ x : String, x ∈ removedRolesList p.2 roleName ↔
            (x ∈ splitSpaces (Prod.snd p).roles ∧ x ≠ roleName))) ∨
        (Prod.fst pc = Phase.addition ∧ p ∈ s.usersToAdd ∧
          (Prod.snd pc).roles = joinSpaces (addedRolesList p.2 roleName) ∧
          (addedRolesList p.2 roleName).Nodup ∧
          (addedRolesList p.2 roleName).count roleName = 1 ∧
          (∀ x : String, x ∈ addedRolesList p.2 roleName ↔
            (x ∈ splitSpaces (Prod.snd p).roles ∨ x = roleName)))) := by
  simp only [handleSubmit] at hpc
  rcases List.mem_append.mp hpc with h | h
  · obtain ⟨c, hcmem, rfl⟩ := List.mem_map.mp (mem_ite_nil _ _ _ h)
    obtain ⟨p, hpmem, rfl⟩ := List.mem_map.mp hcmem
    refine ⟨p, rfl, Or.inl ⟨rfl, hpmem, rfl, nodup_uniq _, ?_⟩⟩
    intro x
    unfold removedRolesList
    rw [mem_uniq, List.mem_filter]
    simp
  · obtain ⟨c, hcmem, rfl⟩ := List.mem_map.mp (mem_ite_nil _ _ _ h)
    obtain ⟨p, hpmem, rfl⟩ := List.mem_map.mp hcmem
    refine ⟨p, rfl, Or.inr ⟨rfl, hpmem, rfl, nodup_uniq _, ?_, ?_⟩⟩
    · refine List.count_eq_one_of_mem (nodup_uniq _) ?_
      unfold addedRolesList
      rw [mem_uniq]
      exact List.mem_append.mpr (Or.inr (List.mem_singleton.mpr rfl))
    · intro x
      unfold addedRolesList
      rw [mem_uniq, List.mem_append, List.mem_singleton]

/-- Witness for C7 at a concrete removal-phase call: the user holds the role
twice alongside another role, and the sent list is exactly the deduplicated
remainder of that user's own role tokens. -/
theorem C7_witness :
    ∃ p : String × UserProfile,
      (Prod.snd ((Phase.removal, ⟨"u1", "a"⟩) : Phase × Call)).userId = p.1 ∧
      ((Prod.fst ((Phase.removal, ⟨"u1", "a"⟩) : Phase × Call) = Phase.removal ∧
          p ∈ ({ initialState with
                  usersToRemove := [("u1", ⟨"u1", "r a r"⟩)]
                  saveNeeded := true } : State).usersToRemove ∧
          (Prod.snd ((Phase.removal, ⟨"u1", "a"⟩) : Phase × Call)).roles =
            joinSpaces (removedRolesList p.2 "r") ∧
          (removedRolesList p.2 "r").Nodup ∧
          (∀ x : String, x ∈ removedRolesList p.2 "r" ↔
            (x ∈ splitSpaces (Prod.snd p).roles ∧ x ≠ "r"))) ∨
        (Prod.fst ((Phase.removal, ⟨"u1", "a"⟩) : Phase × Call) = Phase.addition ∧
          p ∈ ({ initialState with
                  usersToRemove := [("u1", ⟨"u1", "r a r"⟩)]
                  saveNeeded := true } : State).usersToAdd ∧
          (Prod.snd ((Phase.removal, ⟨"u1", "a"⟩) : Phase × Call)).roles =
            joinSpaces (addedRolesList p.2 "r") ∧
          (addedRolesList p.2 "r").Nodup ∧
          (addedRolesList p.2 "r").count "r" = 1 ∧
          (∀ x : String, x ∈ addedRolesList p.2 "r" ↔
            (x ∈ splitSpaces (Prod.snd p).roles ∨ x = "r")))) :=
  C7_role_lists_deduplicated "r" (fun _ _ => ActionResult.ok)
    { initialState with
      usersToRemove := [("u1", ⟨"u1", "r a r"⟩)]
      saveNeeded := true }
    (Phase.removal, ⟨"u1", "a"⟩) (by decide)

theorem addUsers_foldl (users : List UserProfile) (toAdd toRemove : Dict UserProfile)
    (hnodup : (users.map UserProfile.id).Nodup) (hdk : DistinctKeys toRemove) :
    (∀ u ∈ users, (dictLookup u.id toRemove).isSome = true →
      dictLookup u.id (users.foldl addUsersStep (toAdd, toRemove)).1 =
        dictLookup u.id toAdd ∧
      dictLookup u.id (users.foldl addUsersStep (toAdd, toRemove)).2 = none) ∧
    (∀ u ∈ users, dictLookup u.id toRemove = none →
      dictLookup u.id (users.foldl addUsersStep (toAdd, toRemove)).1 = some u ∧
      dictLookup u.id (users.foldl addUsersStep (toAdd, toRemove)).2 = none) ∧
    (∀ k : String, (∀ u ∈ users, u.id ≠ k) →
      dictLookup k (users.foldl addUsersStep (toAdd, toRemove)).1 = dictLookup k toAdd ∧
      dictLookup k (users.foldl addUsersStep (toAdd, toRemove)).2 =
        dictLookup k toRemove) := by
  induction users generalizing toAdd toRemove with
  | nil =>
    exact ⟨fun u hu => absurd hu (List.not_mem_nil u),
      fun u hu => absurd hu (List.not_mem_nil u),
      fun k _ => ⟨rfl, rfl⟩⟩
  | cons u us ih =>
    rw [List.map_cons, List.nodup_cons] at hnodup
    obtain ⟨hu, hnodup'⟩ := hnodup
    have hneq : ∀ v ∈ us, v.id ≠ u.id :=
      fun v hv e => hu (e ▸ List.mem_map_of_mem UserProfile.id hv)
    rcases hlook : dictLookup u.id toRemove with _ | w
    · have hstep : addUsersStep (toAdd, toRemove) u = (dictInsert u.id u toAdd, toRemove) := by
        simp [addUsersStep, hlook]
      rw [List.foldl_cons, hstep]
      obtain ⟨ih1, ih2, ih3⟩ := ih (dictInsert u.id u toAdd) toRemove hnodup' hdk
      refine ⟨?_, ?_, ?_⟩
      · rintro v hv hvs
        rcases List.mem_cons.mp hv with rfl | hv'
        · rw [hlook] at hvs
          simp at hvs
        · obtain ⟨ha, hr⟩ := ih1 v hv' hvs
          refine ⟨?_, hr⟩
          rw [ha, dictLookup_insert_ne v.id u.id u toAdd (hneq v hv')]
      · rintro v hv hvn
        rcases List.mem_cons.mp hv with rfl | hv'
        · have h3 := ih3 v.id hneq
          refine ⟨?_, ?_⟩
          · rw [h3.1, dictLookup_insert_self]
          · rw [h3.2, hlook]
        · exact ih2 v hv' hvn
      · intro k hk
        have hks := ih3 k (fun w hw => hk w (List.mem_cons_of_mem u hw))
        have huk : u.id ≠ k := hk u (List.mem_cons_self u us)
        refine ⟨?_, hks.2⟩
        rw [hks.1, dictLookup_insert_ne k u.id u toAdd (fun e => huk e.symm)]
    · have hstep : addUsersStep (toAdd, toRemove) u = (toAdd, dictErase u.id toRemove) := by
        simp [addUsersStep, hlook]
      rw [List.foldl_cons, hstep]
      obtain ⟨ih1, ih2, ih3⟩ :=
        ih toAdd (dictErase u.id toRemove) hnodup' (distinctKeys_erase u.id toRemove hdk)
      refine ⟨?_, ?_, ?_⟩
      · rintro v hv hvs
        rcases List.mem_cons.mp hv with rfl | hv'
        · have h3 := ih3 v.id hneq
          refine ⟨h3.1, ?_⟩
          rw [h3.2, dictLookup_erase_self v.id toRemove hdk]
        · have hvne : v.id ≠ u.id := hneq v hv'
          have hvs' : (dictLookup v.id (dictErase u.id toRemove)).isSome = true := by
            rw [dictLookup_erase_ne v.id u.id toRemove hvne]
            exact hvs
          exact ih1 v hv' hvs'
      · rintro v hv hvn
        rcases List.mem_cons.mp hv with rfl | hv'
        · rw [hlook] at hvn
          exact Option.noConfusion hvn
        · have hvne : v.id ≠ u.id := hneq v hv'
          have hvn' : dictLookup v.id (dictErase u.id toRemove) = none := by
            rw [dictLookup_erase_ne v.id u.id toRemove hvne]
            exact hvn
          exact ih2 v hv' hvn'
      · intro k hk
        have hks := ih3 k (fun w hw => hk w (List.mem_cons_of_mem u hw))
        have huk : u.id ≠ k := hk u (List.mem_cons_self u us)
        refine ⟨hks.1, ?_⟩
        rw [hks.2, dictLookup_erase_ne k u.id toRemove (fun e => huk e.symm)]

/-- C3 (as stated, refuted): passing the same user twice in one `addUsers`
call when that user has a pending removal: the first occurrence cancels the
removal, the second occurrence then records a pending addition — so a user
"with an entry in the pending-removal map" does end up with a
pending-addition entry, contrary to the claim. -/
theorem C3_counterexample :
    (dictLookup "u1"
      ({ initialState with
          usersToRemove := [("u1", ⟨"u1", "a"⟩)]
          saveNeeded := true } : State).usersToRemove).isSome = true ∧
    dictLookup "u1"
        (addUsersToRole
          { initialState with
            usersToRemove := [("u1", ⟨"u1", "a"⟩)]
            saveNeeded := true }
          [⟨"u1", "a"⟩, ⟨"u1", "a"⟩]).usersToAdd = some ⟨"u1", "a"⟩ := by
  exact ⟨rfl, rfl⟩

/-- C3 (amended): for every list of users *with pairwise distinct ids*
(duplicates in one call are processed sequentially and can cancel a removal
and then re-add the user), each user with a pending-removal entry has that
entry deleted and gets no pending-addition entry, each user without one is
recorded as a pending addition, and no other entry of either map changes.
The starting state is assumed well-formed: distinct keys, and no user id
pending in both maps at once (mutual exclusivity, which all reachable states
satisfy). -/
theorem C3_addUsers (s : State) (users : List UserProfile)
    (hnodup : (users.map UserProfile.id).Nodup)
    (hdk : DistinctKeys s.usersToRemove)
    (hexcl : ∀ k, (dictLookup k s.usersToRemove).isSome = true →
      dictLookup k s.usersToAdd = none) :
    (∀ u ∈ users, (dictLookup u.id s.usersToRemove).isSome = true →
      dictLookup u.id (addUsersToRole s users).usersToRemove = none ∧
      dictLookup u.id (addUsersToRole s users).usersToAdd = none) ∧
    (∀ u ∈ users, dictLookup u.id s.usersToRemove = none →
      dictLookup u.id (addUsersToRole s users).usersToAdd = some u ∧
      dictLookup u.id (addUsersToRole s users).usersToRemove = none) ∧
    (∀ k : String, (∀ u ∈ users, u.id ≠ k) →
      dictLookup k (addUsersToRole s users).usersToAdd = dictLookup k s.usersToAdd ∧
      dictLookup k (addUsersToRole s users).usersToRemove =
        dictLookup k s.usersToRemove) := by
  obtain ⟨f1, f2, f3⟩ := addUsers_foldl users s.usersToAdd s.usersToRemove hnodup hdk
  refine ⟨?_, ?_, ?_⟩
  · intro u hu hs
    obtain ⟨ha, hr⟩ := f1 u hu hs
    refine ⟨hr, ?_⟩
    rw [show (addUsersToRole s users).usersToAdd =
      (users.foldl addUsersStep (s.usersToAdd, s.usersToRemove)).1 from rfl, ha]
    exact hexcl u.id hs
  · intro u hu hn
    exact f2 u hu hn
  · intro k hk
    exact f3 k hk

/-- Witness for C3 (amended) at a concrete state and a singleton user list. -/
theorem C3_witness :
    dictLookup "u2"
        (addUsersToRole initialState [⟨"u2", "b"⟩]).usersToAdd =
      some ⟨"u2", "b"⟩ ∧
    dictLookup "u2"
        (addUsersToRole initialState [⟨"u2", "b"⟩]).usersToRemove = none :=
  (C3_addUsers initialState [⟨"u2", "b"⟩] (by decide) (by decide)
      (fun k hk => by simp [initialState, dictLookup] at hk)).2.1
    ⟨"u2", "b"⟩ (List.mem_singleton.mpr rfl) rfl

theorem getSaveNeeded_iff (a b : Dict UserProfile) :
    getSaveNeeded a b = true ↔ (a ≠ [] ∨ b ≠ []) := by
  simp [getSaveNeeded, List.length_pos]

/-- C5 (as stated, refuted): the state reached by adding one user and then
submitting against a failing remote is reachable, has `saveNeeded = true`,
yet both pending maps are empty — so save-needed is *not* equivalent to the
pending maps being non-empty on all reachable states. -/
theorem C5_counterexample :
    Reachable (handleSubmit "r" (fun _ _ => ActionResult.error "boom")
        (addUsersToRole initialState [⟨"u1", "a"⟩])).2 ∧
    (handleSubmit "r" (fun _ _ => ActionResult.error "boom")
        (addUsersToRole initialState [⟨"u1", "a"⟩])).2.saveNeeded = true ∧
    (handleSubmit "r" (fun _ _ => ActionResult.error "boom")
        (addUsersToRole initialState [⟨"u1", "a"⟩])).2.usersToAdd = [] ∧
    (handleSubmit "r" (fun _ _ => ActionResult.error "boom")
        (addUsersToRole initialState [⟨"u1", "a"⟩])).2.usersToRemove = [] :=
  ⟨Reachable.submit _ _ _ (Reachable.addUsers _ _ Reachable.init),
    by decide, rfl, rfl⟩

/-- C5 (amended): the equivalence "save-needed iff a pending map is
non-empty" holds in every state reachable when each submit's issued calls all
succeed; a submit with a failing call breaks it, leaving save-needed true with
both pending maps empty (see the counterexample). -/
theorem C5_saveNeeded_iff_reachable (s : State) (h : ReachableOk s) :
    s.saveNeeded = true ↔ (s.usersToAdd ≠ [] ∨ s.usersToRemove ≠ []) := by
  induction h with
  | init =>
    constructor
    · intro hb
      exact absurd hb (by decide)
    · rintro (h | h) <;> exact absurd rfl h
  | addUsers s users hs ih =>
    exact getSaveNeeded_iff _ _
  | removeUser s user hs ih =>
    exact getSaveNeeded_iff _ _
  | updatePerm s name v hs ih =>
    exact ih
  | submit s roleName env hok hs ih =>
    have hfind : List.find? ActionResult.isErr
        ((handleSubmit roleName env s).1.map
          (fun pc => env (Prod.snd pc).userId (Prod.snd pc).roles)) = none := by
      apply List.find?_eq_none.mpr
      intro r hr
      obtain ⟨pc, hpc, rfl⟩ := List.mem_map.mp hr
      simp [hok pc hpc]
    have hse : (handleSubmit roleName env s).2.serverError = none := by
      rw [handleSubmit_serverError, hfind]
      rfl
    have hsn : (handleSubmit roleName env s).2.saveNeeded =
        (handleSubmit roleName env s).2.serverError.isSome := rfl
    rw [hsn, hse]
    constructor
    · intro hb
      exact absurd hb (by decide)
    · rintro (h | h) <;> exact absurd rfl h

/-- Witness for C5 (amended) at a concrete reachable state with one pending
addition. -/
theorem C5_witness :
    (addUsersToRole initialState [⟨"u1", "a"⟩]).saveNeeded = true ↔
      ((addUsersToRole initialState [⟨"u1", "a"⟩]).usersToAdd ≠ [] ∨
        (addUsersToRole initialState [⟨"u1", "a"⟩]).usersToRemove ≠ []) :=
  C5_saveNeeded_iff_reachable (addUsersToRole initialState [⟨"u1", "a"⟩])
    (ReachableOk.addUsers initialState [⟨"u1", "a"⟩] ReachableOk.init)

end SystemRole
